import Mathlib

/-!
Verification development for the deep-reactivity proxy core
(`src/packages/svelte/src/internal/client/proxy.js`).

Two shallow embeddings are developed:

1. A per-wrapper state machine (`PState` plus the handlers in namespace
   `state_proxy_handler`) embedding the operation-level logic of the
   `state_proxy_handler` object: `get`, `set`, `deleteProperty`, `has`,
   `defineProperty` and `ownKeys`.  Property keys are modelled by `Key`
   (string keys; the canonical decimal numeral strings that arise as array
   indices are represented by the dedicated constructor `Key.idx`, so that
   the `Number(prop)`/`Number.isInteger` test of the source becomes a
   constructor match).  `DEV`-only branches (ownership tracking,
   `setPrototypeOf`) are production-mode no-ops and are omitted, as the spec
   treats them as an external collaborator.

2. A small heap model (namespace `HeapM`) for the wrapper factory
   `proxy(value)`, `get_proxied_value` and `is`, which need object identity:
   a heap is a list of objects addressed by position, `proxy` allocates the
   JS `Proxy` object and installs the `STATE_SYMBOL` metadata on the target.
-/

namespace SvelteProxy

/-- Sentinel and value universe for cell contents and property values.
`uninit` models the `UNINITIALIZED` sentinel (the tombstone), `undefined` the
JS `undefined`.  `rawObj i` models a wrappable plain object (identified by
`i`) that has not been wrapped; `wrapped i` models the reactive wrapper of
that object, which is what `proxy(value, metadata)` turns `rawObj i` into. -/
inductive Val where
  | undefined : Val
  | uninit : Val
  | num : Int → Val
  | str : String → Val
  | rawObj : Nat → Val
  | wrapped : Nat → Val
deriving DecidableEq, Repr

/-- Property keys.  All keys reaching the handlers are strings
(`STATE_SYMBOL` is handled before the string-key logic and is not part of
this state machine).  `idx n` stands for the canonical decimal numeral
string of `n`, so that the source's `Number(prop)` integer test is a
constructor match; every other string key is `str s`. -/
inductive Key where
  | str : String → Key
  | idx : Nat → Key
deriving DecidableEq, Repr

/-- Models `proxy(value, metadata)` at the value level: a wrappable plain
object becomes its wrapper; primitives, the sentinel and already-wrapped
values pass through unchanged (the factory only wraps unfrozen plain
objects/arrays and is idempotent on existing wrappers). -/
def proxyVal : Val → Val
  | .rawObj i => .wrapped i
  | v => v

/-- Own property of the raw target: a data property with its `writable`
flag, or an accessor property recording whether it has a setter.  (Getter
results are not modelled; wrapped targets in the claims only carry data
properties.) -/
inductive TProp where
  | data : Val → Bool → TProp
  | accessor : Bool → TProp
deriving DecidableEq, Repr

/-- Association-list lookup with decidable key equality, modelling both
`Map.prototype.get` and own-property lookup on the raw target. -/
def lookupK {α : Type} : List (Key × α) → Key → Option α
  | [], _ => none
  | (k, v) :: rest, k2 => if k = k2 then some v else lookupK rest k2

/-- Association-list update-or-append, modelling `Map.prototype.set`:
an existing key keeps its position (JS `Map` insertion order), a new key is
appended. -/
def setK {α : Type} : List (Key × α) → Key → α → List (Key × α)
  | [], k2, v2 => [(k2, v2)]
  | (k, v) :: rest, k2, v2 =>
    if k = k2 then (k, v2) :: rest else (k, v) :: setK rest k2 v2

/-- Per-wrapper state: the raw target's own properties (`tgt`, in the raw
own-key order), the `metadata.s` property→cell mapping (`cells`, cell value
only, in `Map` insertion order), the integer value of the
`metadata.v` structural-version cell, and the `metadata.a` array flag. -/
structure PState where
  tgt : List (Key × TProp)
  cells : List (Key × Val)
  version : Nat
  isArr : Bool
deriving DecidableEq, Repr

/-- Models `get_descriptor(target, prop)?.writable` coerced to a boolean:
`undefined` (missing property, or the `writable` field of an accessor
descriptor) is falsy. -/
def tgtWritable (st : PState) (prop : Key) : Bool :=
  match lookupK st.tgt prop with
  | some (.data _ w) => w
  | some (.accessor _) => false
  | none => false

/-- Models reading `target[prop]` on the raw target: a data property yields
its value; a missing property yields `undefined`.  (An accessor's getter is
not modelled and yields `undefined`.) -/
def tgtRead (st : PState) (prop : Key) : Val :=
  match lookupK st.tgt prop with
  | some (.data v _) => v
  | _ => .undefined

/-- Models `target.length` for array targets: the value of the raw `length`
own property. -/
def tgtLength (st : PState) : Int :=
  match lookupK st.tgt (.str "length") with
  | some (.data (.num n) _) => n
  | _ => 0

/-- Spec-level existence of a key through the wrapper: a live
(non-tombstone) cell, or, when no cell exists, raw presence on the target.
This is exactly the `exists` computation of the `deleteProperty` handler. -/
def existsKey (st : PState) (prop : Key) : Bool :=
  match lookupK st.cells prop with
  | some c => decide (c ≠ .uninit)
  | none => (lookupK st.tgt prop).isSome

/-- Observable events emitted by a handler run, used to state ordering and
dependency-registration facts: `readVersion` is `get(metadata.v)`,
`rawWrite` is the `descriptor.set.call(receiver, value)` raw-storage
update, `bumpVersion` is `update_version(metadata.v)`. -/
inductive Ev where
  | readVersion : Ev
  | rawWrite : Ev
  | bumpVersion : Ev
deriving DecidableEq, Repr

/-- The key string `i + ''` for the loop counter of the length-truncation
loop (a non-negative counter is a canonical index numeral). -/
def intKey (i : Int) : Key :=
  if 0 ≤ i then .idx i.toNat else .str (toString i)

/-- Integer range `[a, b)` as a list, for the `for (var i = value;
i < target.length; i += 1)` loop. -/
def intRange (a b : Int) : List Int :=
  (List.range (b - a).toNat).map (fun j => a + (j : Int))

namespace state_proxy_handler

/-- Models the `get` trap for string keys (the `STATE_SYMBOL` branch is not
part of the string-key state machine).  Looks up or lazily creates the
property's cell under the source's rule and returns the cell's value with
the tombstone mapped to `undefined`; a non-writable existing property gets
no cell and is forwarded to `Reflect.get`. -/
def get (st : PState) (prop : Key) : PState × Val :=
  match lookupK st.cells prop with
  | some c => (st, if c = .uninit then .undefined else c)
  | none =>
    if !(lookupK st.tgt prop).isSome || tgtWritable st prop then
      let v := proxyVal (if (lookupK st.tgt prop).isSome then tgtRead st prop else .uninit)
      ({ st with cells := setK st.cells prop v }, if v = .uninit then .undefined else v)
    else
      (st, tgtRead st prop)

/-- Models the `deleteProperty` trap: existence from the cell's tombstone
state (or raw presence when no cell exists), the cell (if any) set to the
tombstone, the structural version bumped exactly when the key existed;
returns existence. -/
def deleteProperty (st : PState) (prop : Key) : PState × Bool :=
  let excomp : Bool :=
    match lookupK st.cells prop with
    | some c => decide (c ≠ .uninit)
    | none => (lookupK st.tgt prop).isSome
  let cells1 :=
    match lookupK st.cells prop with
    | some _ => setK st.cells prop .uninit
    | none => st.cells
  ({ st with
      cells := cells1,
      version := if excomp then st.version + 1 else st.version },
    excomp)

/-- Models the `has` trap for string keys.  `eff` is whether
`current_effect` is non-null (ambient scheduler state). -/
def has (eff : Bool) (st : PState) (prop : Key) : PState × Bool :=
  let s0 := lookupK st.cells prop
  let rawHas := (lookupK st.tgt prop).isSome
  let has0 : Bool :=
    (match s0 with | some c => decide (c ≠ .uninit) | none => false) || rawHas
  if s0.isSome || (eff && (!has0 || tgtWritable st prop)) then
    match s0 with
    | some c =>
      if c = .uninit then (st, false) else (st, has0)
    | none =>
      let v := if has0 then proxyVal (tgtRead st prop) else .uninit
      let st1 := { st with cells := setK st.cells prop v }
      if v = .uninit then (st1, false) else (st1, has0)
  else
    (st, has0)

/-- Plain property descriptor as received by the `defineProperty` trap:
absent fields stay absent (`none`). -/
structure Desc where
  value : Option Val
  writable : Option Bool
  enumerable : Option Bool
  configurable : Option Bool
deriving DecidableEq, Repr

/-- The rejection test of the `defineProperty` trap:
`!('value' in descriptor) || descriptor.configurable === false ||
descriptor.enumerable === false || descriptor.writable === false`. -/
def badDesc (d : Desc) : Bool :=
  d.value.isNone || decide (d.configurable = some false) ||
    decide (d.enumerable = some false) || decide (d.writable = some false)

/-- Models the `defineProperty` trap: an unsupported descriptor signals
`state_descriptors_fixed` (the `.error` case, thrown before any mutation);
otherwise a fresh cell is created holding the raw descriptor value, or an
existing cell is set to the wrapped value. -/
def defineProperty (st : PState) (prop : Key) (d : Desc) : Except Unit PState :=
  if badDesc d then .error ()
  else
    let v := d.value.getD .undefined
    match lookupK st.cells prop with
    | none => .ok { st with cells := setK st.cells prop v }
    | some _ => .ok { st with cells := setK st.cells prop (proxyVal v) }

/-- Cell update and `has` recomputation of the `set` trap: when no cell
exists one is created under the lazy rule (key absent, or present and
writable); when a cell exists, `has` is recomputed from its tombstone
state.  Returns the updated cell map and the recomputed `has`. -/
def setCellsHas (st : PState) (prop : Key) (value : Val) :
    List (Key × Val) × Bool :=
  match lookupK st.cells prop with
  | none =>
    if !(lookupK st.tgt prop).isSome || tgtWritable st prop then
      (setK st.cells prop (proxyVal value), (lookupK st.tgt prop).isSome)
    else
      (st.cells, (lookupK st.tgt prop).isSome)
  | some c => (setK st.cells prop (proxyVal value), decide (c ≠ .uninit))

/-- The `variable.length = value` truncation loop of the `set` trap: every
cell whose key is `i + ''` for `newLen ≤ i < oldLen` is set to the
tombstone (cells are not created for untracked indices). -/
def truncateCells (cells : List (Key × Val)) (newLen oldLen : Int) :
    List (Key × Val) :=
  (intRange newLen oldLen).foldl
    (fun cs i =>
      match lookupK cs (intKey i) with
      | some _ => setK cs (intKey i) .uninit
      | none => cs)
    cells

/-- The length-extension step of the `set` trap, run when the written key
was not previously present: for an integer key `n`, if a `length` cell
exists and holds a number `≤ n`, it is set to `n + 1`. -/
def extendLength (cells : List (Key × Val)) (prop : Key) :
    List (Key × Val) :=
  match prop with
  | .idx n =>
    match lookupK cells (.str "length") with
    | some (.num L) =>
      if (n : Int) ≥ L then setK cells (.str "length") (.num ((n : Int) + 1))
      else cells
    | _ => cells
  | .str _ => cells

/-- Models the `set` trap for string keys, returning the new state and the
list of observable events in execution order.  In source order: cell
creation/update with `has` recomputation; the array `length` truncation
loop; the raw-storage update via the own descriptor's setter (a plain data
property is never written back to the target); and, when the key was not
previously present, the array `length` extension followed by the
structural-version bump. -/
def set (st : PState) (prop : Key) (value : Val) : PState × List Ev :=
  let ch := setCellsHas st prop value
  let cells2 :=
    if st.isArr ∧ prop = .str "length" then
      match value with
      | .num n => truncateCells ch.1 n (tgtLength st)
      | _ => ch.1
    else ch.1
  let ev1 : List Ev :=
    match lookupK st.tgt prop with
    | some (.accessor true) => [.rawWrite]
    | _ => []
  if ch.2 then
    ({ st with cells := cells2 }, ev1)
  else
    let cells3 := if st.isArr then extendLength cells2 prop else cells2
    ({ st with cells := cells3, version := st.version + 1 },
      ev1 ++ [.bumpVersion])

/-- Models the `ownKeys` trap: reads the structural-version cell (the
`readVersion` event), filters the raw own keys by tombstone state, then
pushes every live cell key that is not on the raw target, in cell-map
iteration order. -/
def ownKeys (st : PState) : List Ev × List Key :=
  let own_keys :=
    (st.tgt.map Prod.fst).filter fun key =>
      match lookupK st.cells key with
      | none => true
      | some c => decide (c ≠ .uninit)
  let own_keys2 :=
    st.cells.foldl
      (fun acc kc =>
        if decide (kc.2 ≠ .uninit) && (lookupK st.tgt kc.1).isNone then
          acc ++ [kc.1]
        else acc)
      own_keys
  ([.readVersion], own_keys2)

end state_proxy_handler

/-- The empty plain-object wrapper state: `wrap(\x7b\x7d)`. -/
def emptyObjState : PState :=
  { tgt := [], cells := [], version := 0, isArr := false }

/-- The fresh array wrapper state `wrap([1,2,3])`: raw own keys
`"0","1","2","length"` in JS own-key order, no cells yet. -/
def wrap123 : PState :=
  { tgt := [(.idx 0, .data (.num 1) true), (.idx 1, .data (.num 2) true),
            (.idx 2, .data (.num 3) true),
            (.str "length", .data (.num 3) true)],
    cells := [], version := 0, isArr := true }

/-- The state of `wrap([1,2,3])` after `w[1]`, `w[2]` and `w.length` have
been read through the wrapper (creating their cells lazily). -/
def arr123read : PState :=
  (state_proxy_handler.get
    ((state_proxy_handler.get
        ((state_proxy_handler.get wrap123 (.idx 1)).1) (.idx 2)).1)
    (.str "length")).1

/-- The state of `arr123read` after the truncating write `w.length = 1`. -/
def arrTrunc : PState :=
  (state_proxy_handler.set arr123read (.str "length") (.num 1)).1

/-!
Heap model for the wrapper factory `proxy(value)` and the identity
utilities `get_proxied_value` and `is`.  A heap is a list of objects
addressed by position; `proxy` allocates the JS `Proxy` object at the end
of the heap and installs the `STATE_SYMBOL` metadata on the target.
-/

namespace HeapM

/-- The `STATE_SYMBOL` metadata payload as far as identity is concerned:
`p` is the address of the wrapper proxy, `t` the address of the original
target (the cell map and version live in the per-wrapper model). -/
structure Meta where
  p : Nat
  t : Nat
deriving DecidableEq, Repr

/-- Heap object: an ordinary object (with its frozen flag, whether its
prototype is the bare object/array prototype, and the `STATE_SYMBOL` slot),
or a `Proxy` exotic object over a target address. -/
inductive HObj where
  | plain : Bool → Bool → Option Meta → HObj
  | proxyOf : Nat → HObj
deriving DecidableEq, Repr

/-- A JS value for the factory: a primitive (tagged, so distinct primitives
stay distinct) or a reference to a heap object. -/
inductive HVal where
  | prim : Nat → HVal
  | ref : Nat → HVal
deriving DecidableEq, Repr

/-- The heap: objects addressed by list position; allocation appends. -/
structure Heap where
  objs : List HObj
deriving DecidableEq, Repr

/-- Address lookup. -/
def getObj (h : Heap) (a : Nat) : Option HObj := h.objs[a]?

/-- Models `STATE_SYMBOL in value` followed by `value[STATE_SYMBOL]`: on a
plain object this reads the hidden slot; on a `Proxy` the `has` trap
answers true and the `get` trap forwards `Reflect.get(target, STATE_SYMBOL)`
to the target's slot. -/
def metaOf (h : Heap) (a : Nat) : Option Meta :=
  match getObj h a with
  | some (.plain _ _ m) => m
  | some (.proxyOf t) =>
    match getObj h t with
    | some (.plain _ _ m) => m
    | _ => none
  | none => none

/-- Models `is_frozen(value)`: a `Proxy` forwards to its target. -/
def isFrozenH (h : Heap) (a : Nat) : Bool :=
  match getObj h a with
  | some (.plain f _ _) => f
  | some (.proxyOf t) =>
    match getObj h t with
    | some (.plain f _ _) => f
    | _ => false
  | none => false

/-- Models the `get_prototype_of(value) === object_prototype ||
... === array_prototype` test; a `Proxy` forwards to its target. -/
def protoOkH (h : Heap) (a : Nat) : Bool :=
  match getObj h a with
  | some (.plain _ pk _) => pk
  | some (.proxyOf t) =>
    match getObj h t with
    | some (.plain _ pk _) => pk
    | _ => false
  | none => false

/-- Models `define_property(value, STATE_SYMBOL, ...)`: installs the
metadata slot on a plain object (the only objects it is called on). -/
def setMetaAt (l : List HObj) (a : Nat) (m : Meta) : List HObj :=
  match l[a]? with
  | some (.plain f pk _) => l.set a (.plain f pk (some m))
  | _ => l

/-- Fresh-wrap path of the factory: when the prototype is bare, allocate a
new `Proxy` over `a` at the end of the heap and install the metadata
(`p` = the new proxy, `t` = the target) on `a`; otherwise return the value
unchanged. -/
def freshWrap (h : Heap) (a : Nat) : Heap × HVal :=
  if protoOkH h a then
    ({ objs := setMetaAt h.objs a ⟨h.objs.length, a⟩ ++ [.proxyOf a] },
      .ref h.objs.length)
  else (h, .ref a)

/-- Models the wrapper factory `proxy(value)` (production mode; the `DEV`
ownership bookkeeping is external).  Non-objects and frozen objects pass
through; a value carrying a metadata record whose `t` or `p` matches the
value itself yields the existing wrapper; a copied marker is ignored and
falls through to the fresh-wrap logic. -/
def proxy (h : Heap) (v : HVal) : Heap × HVal :=
  match v with
  | .prim _ => (h, v)
  | .ref a =>
    if isFrozenH h a then (h, v)
    else
      match metaOf h a with
      | some m => if m.t = a ∨ m.p = a then (h, .ref m.p) else freshWrap h a
      | none => freshWrap h a

/-- Models `get_proxied_value`: a value carrying a metadata record is
normalized to the record's wrapper `p`; anything else is unchanged. -/
def get_proxied_value (h : Heap) (v : HVal) : HVal :=
  match v with
  | .prim _ => v
  | .ref a =>
    match metaOf h a with
    | some m => .ref m.p
    | none => v

/-- Models `is(a, b)`: `Object.is` on the `get_proxied_value`
normalizations (reference identity on objects). -/
def is (h : Heap) (a b : HVal) : Bool :=
  decide (get_proxied_value h a = get_proxied_value h b)

end HeapM

/-- A one-object heap holding a single fresh plain object, for witnesses. -/
def heap1 : HeapM.Heap := { objs := [.plain false true none] }

/-- A two-object heap holding two distinct fresh plain objects. -/
def heap2 : HeapM.Heap := { objs := [.plain false true none, .plain false true none] }

/-- The state of `wrap(\x7b\x7d)` after the write `w.a = 1`. -/
def wObjA : PState := (state_proxy_handler.set emptyObjState (.str "a") (.num 1)).1

/-- The state of `wObjA` after `delete w.a`. -/
def wObjADel : PState := (state_proxy_handler.deleteProperty wObjA (.str "a")).1

/-- A wrapper state whose target has an own accessor property with a setter
at key `"a"`, and whose cell for `"a"` is a tombstone (the key was defined
through the wrapper and then deleted), so that a write both calls the raw
setter and bumps the structural version. -/
def accessorState : PState :=
  { tgt := [(.str "a", .accessor true)], cells := [(.str "a", .uninit)],
    version := 0, isArr := false }

/-- Result state of defining key `"a"` with value `1` on the empty-object
wrapper: the cell is created, the structural version is not bumped. -/
def defAState : PState :=
  { tgt := [], cells := [(.str "a", .num 1)], version := 0, isArr := false }

/-- Result state of defining key `"b"` with value `2` on the empty-object
wrapper (version untouched). -/
def defBState : PState :=
  { tgt := [], cells := [(.str "b", .num 2)], version := 0, isArr := false }

/-- Result state of the write `w.b = 2` on the empty-object wrapper (version
bumped). -/
def setBState : PState :=
  { tgt := [], cells := [(.str "b", .num 2)], version := 1, isArr := false }

/-- Decidable equality on `defineProperty` results, so that concrete runs
can be settled by `decide`. -/
instance : DecidableEq (Except Unit PState) := fun a b =>
  match a, b with
  | .error u1, .error u2 => isTrue (by cases u1; cases u2; rfl)
  | .error _, .ok _ => isFalse (fun h => Except.noConfusion h)
  | .ok _, .error _ => isFalse (fun h => Except.noConfusion h)
  | .ok s1, .ok s2 =>
    if h : s1 = s2 then isTrue (by rw [h])
    else isFalse (fun he => h (by cases he; rfl))

/-!
Helper lemmas about the association-list primitives and the `set` trap.
-/

theorem lookupK_setK_self {α : Type} (l : List (Key × α)) (k : Key) (v : α) :
    lookupK (setK l k v) k = some v := by
  induction l with
  | nil => simp [setK, lookupK]
  | cons kv rest ih =>
    obtain ⟨k1, v1⟩ := kv
    by_cases h : k1 = k
    · simp [setK, h, lookupK]
    · simp [setK, h, lookupK, ih]

theorem lookupK_setK_ne {α : Type} (l : List (Key × α)) (k k2 : Key) (v : α)
    (h : k ≠ k2) : lookupK (setK l k v) k2 = lookupK l k2 := by
  induction l with
  | nil => simp [setK, lookupK, h]
  | cons kv rest ih =>
    obtain ⟨k1, v1⟩ := kv
    by_cases h1 : k1 = k
    · subst h1; simp [setK, lookupK, h]
    · by_cases h2 : k1 = k2
      · subst h2; simp [setK, lookupK, h1, Ne.symm h]
      · simp [setK, lookupK, h1, h2, ih]

theorem lookupK_eq_none_iff {α : Type} (l : List (Key × α)) (k : Key) :
    lookupK l k = none ↔ k ∉ l.map Prod.fst := by
  induction l with
  | nil => simp [lookupK]
  | cons kv rest ih =>
    obtain ⟨k1, v1⟩ := kv
    by_cases h : k1 = k
    · subst h; simp [lookupK]
    · have hk : ¬ k = k1 := fun he => h he.symm
      simp [lookupK, h, ih, hk]

theorem lookupK_isNone {α : Type} (l : List (Key × α)) (k : Key) :
    (lookupK l k).isNone = decide (k ∉ l.map Prod.fst) := by
  by_cases hm : k ∈ l.map Prod.fst
  · have h1 : decide (k ∉ l.map Prod.fst) = false := by simp [hm]
    rw [h1]
    rcases h : lookupK l k with _ | v
    · exact absurd ((lookupK_eq_none_iff l k).mp h) (by simpa using hm)
    · rfl
  · have h1 : decide (k ∉ l.map Prod.fst) = true := by simp [hm]
    rw [h1, Option.isNone_iff_eq_none]
    exact (lookupK_eq_none_iff l k).mpr hm

theorem foldl_pushKeys (p : Key × Val → Bool) :
    ∀ (l : List (Key × Val)) (init : List Key),
      l.foldl (fun acc kc => if p kc then acc ++ [kc.1] else acc) init =
        init ++ (l.filter p).map Prod.fst := by
  intro l
  induction l with
  | nil => intro init; simp
  | cons kc rest ih =>
    intro init
    by_cases h : p kc <;> simp [List.foldl_cons, h, ih, List.filter_cons]

theorem setCellsHas_snd (st : PState) (prop : Key) (v : Val) :
    (state_proxy_handler.setCellsHas st prop v).2 = existsKey st prop := by
  unfold state_proxy_handler.setCellsHas existsKey
  cases h : lookupK st.cells prop
  · simp only [h]
    split <;> rfl
  · simp [h]

theorem set_version (st : PState) (prop : Key) (v : Val) :
    (state_proxy_handler.set st prop v).1.version =
      if existsKey st prop then st.version else st.version + 1 := by
  by_cases hc : existsKey st prop <;>
    simp [state_proxy_handler.set, setCellsHas_snd, hc]

theorem set_tgt (st : PState) (prop : Key) (v : Val) :
    (state_proxy_handler.set st prop v).1.tgt = st.tgt := by
  by_cases hc : existsKey st prop <;>
    simp [state_proxy_handler.set, setCellsHas_snd, hc]

theorem set_events (st : PState) (prop : Key) (v : Val) :
    (state_proxy_handler.set st prop v).2 =
      (if lookupK st.tgt prop = some (.accessor true) then [Ev.rawWrite] else []) ++
        (if existsKey st prop then [] else [Ev.bumpVersion]) := by
  by_cases hc : existsKey st prop <;>
  · rcases hm : lookupK st.tgt prop with _ | tp
    · simp [state_proxy_handler.set, setCellsHas_snd, hc, hm]
    · rcases tp with ⟨v1, w1⟩ | b
      · simp [state_proxy_handler.set, setCellsHas_snd, hc, hm]
      · cases b <;> simp [state_proxy_handler.set, setCellsHas_snd, hc, hm]

/-!
Claim theorems.
-/

/-- C1, counterexample: on the code as written the claim fails on a fresh
wrapper.  After `w = wrap([1,2,3])` and `w.length = 1`, reading `w[1]`
yields the stale raw value `2` (not absence), because no cell existed for
index `1` when the truncation loop ran and the raw target is never written;
and on a fresh wrapper `w[5] = 9` followed by reading `w.length` yields `3`
(not `6`), because no `length` cell exists yet so the extension step is
skipped and the read lazily initializes `length` from the stale raw
target. -/
theorem c1_counterexample :
    (state_proxy_handler.get
        ((state_proxy_handler.set wrap123 (.str "length") (.num 1)).1) (.idx 1)).2 =
      .num 2 ∧
    (state_proxy_handler.get
        ((state_proxy_handler.set wrap123 (.idx 5) (.num 9)).1) (.str "length")).2 =
      .num 3 := by decide

/-- C1 (amended): the claimed behaviour holds once the relevant cells
exist.  For `w = wrap([1,2,3])` whose indices `1`, `2` and `length` have
been read through the wrapper, `w.length = 1` makes reads of indices `1`
and `2` report absent and `w.length` read `1`, and a subsequent `w[5] = 9`
makes `w.length` read `6`.  In general, for any array-kind state whose
`length` cell holds a number `L`, an index write at a not-present index `n`
leaves the `length` cell holding a number that is at least `n + 1`. -/
theorem c1_amended :
    ((state_proxy_handler.get arrTrunc (.idx 1)).2 = .undefined ∧
     (state_proxy_handler.get arrTrunc (.idx 2)).2 = .undefined ∧
     (state_proxy_handler.get arrTrunc (.str "length")).2 = .num 1 ∧
     (state_proxy_handler.get
        ((state_proxy_handler.set arrTrunc (.idx 5) (.num 9)).1) (.str "length")).2 =
       .num 6) ∧
    (∀ (st : PState) (n : Nat) (v : Val) (L : Int),
      st.isArr = true →
      lookupK st.cells (.str "length") = some (.num L) →
      existsKey st (.idx n) = false →
      ∃ L2 : Int,
        lookupK (state_proxy_handler.set st (.idx n) v).1.cells (.str "length") =
            some (.num L2) ∧ (n : Int) + 1 ≤ L2) := by
  refine ⟨by decide, ?_⟩
  intro st n v L hA hL hE
  have hne : (Key.idx n) ≠ (Key.str "length") := by simp
  have hch1 : (state_proxy_handler.setCellsHas st (.idx n) v).1 =
      setK st.cells (.idx n) (proxyVal v) := by
    unfold state_proxy_handler.setCellsHas
    cases hcell : lookupK st.cells (.idx n) with
    | none =>
      have hT : (lookupK st.tgt (.idx n)).isSome = false := by
        unfold existsKey at hE; rw [hcell] at hE; exact hE
      simp [hcell, hT]
    | some c => simp [hcell]
  have hch2 : (state_proxy_handler.setCellsHas st (.idx n) v).2 = false := by
    rw [setCellsHas_snd]; exact hE
  have hcells : (state_proxy_handler.set st (.idx n) v).1.cells =
      state_proxy_handler.extendLength (setK st.cells (.idx n) (proxyVal v)) (.idx n) := by
    simp [state_proxy_handler.set, hch2, hch1, hA, hne]
  rw [hcells]
  have hlook : lookupK (setK st.cells (.idx n) (proxyVal v)) (.str "length") =
      some (.num L) := by rw [lookupK_setK_ne _ _ _ _ hne, hL]
  have hext : state_proxy_handler.extendLength (setK st.cells (.idx n) (proxyVal v)) (.idx n) =
      (if (n : Int) ≥ L then
        setK (setK st.cells (.idx n) (proxyVal v)) (.str "length") (.num ((n : Int) + 1))
       else setK st.cells (.idx n) (proxyVal v)) := by
    unfold state_proxy_handler.extendLength
    rw [hlook]
  rw [hext]
  by_cases hgl : (n : Int) ≥ L
  · refine ⟨(n : Int) + 1, ?_, le_refl _⟩
    simp [hgl, lookupK_setK_self]
  · refine ⟨L, ?_, by omega⟩
    simp [hgl, hlook]

/-- Witness for C1 (amended): applying the general length invariant at the
concrete truncated state with index `5` yields a `length` cell value of at
least `6`. -/
theorem c1_amended_witness :
    ∃ L2 : Int,
      lookupK (state_proxy_handler.set arrTrunc (.idx 5) (.num 9)).1.cells (.str "length") =
          some (.num L2) ∧ ((5 : Nat) : Int) + 1 ≤ L2 :=
  c1_amended.2 arrTrunc 5 (.num 9) 1 (by decide) (by decide) (by decide)

/-- C8: read/write/delete/has round-trip on `w = wrap(\x7b\x7d)`: after
`w.a = 1`, reading `w.a` yields `1`; the delete of `"a"` returns `true`;
afterwards `"a" in w` is `false` (whatever the ambient effect state) and
reading `w.a` yields `undefined`.  In general `deleteProperty` returns
`true` exactly when the key existed (live cell, or raw presence when
untracked). -/
theorem c8_roundtrip :
    ((state_proxy_handler.get wObjA (.str "a")).2 = .num 1 ∧
     (state_proxy_handler.deleteProperty wObjA (.str "a")).2 = true ∧
     (state_proxy_handler.has false wObjADel (.str "a")).2 = false ∧
     (state_proxy_handler.has true wObjADel (.str "a")).2 = false ∧
     (state_proxy_handler.get wObjADel (.str "a")).2 = .undefined) ∧
    (∀ (st : PState) (k : Key),
      (state_proxy_handler.deleteProperty st k).2 = existsKey st k) := by
  refine ⟨by decide, ?_⟩
  intro st k
  unfold state_proxy_handler.deleteProperty existsKey
  cases h : lookupK st.cells k <;> simp [h]

/-- C2, counterexample: a write through the wrapper does not update the
underlying raw storage.  After `w = wrap(\x7b\x7d)` and `w.a = 1`, the raw
target still has no own property `"a"` (the value lives only in the cell),
even though the write completed and bumped the structural version. -/
theorem c2_counterexample :
    lookupK (state_proxy_handler.set emptyObjState (.str "a") (.num 1)).1.tgt (.str "a") =
      none ∧
    lookupK (state_proxy_handler.set emptyObjState (.str "a") (.num 1)).1.cells (.str "a") =
      some (.num 1) ∧
    (state_proxy_handler.set emptyObjState (.str "a") (.num 1)).2 = [Ev.bumpVersion] := by
  decide

/-- C2 (amended): the raw-storage update only happens through the own
descriptor's setter, when the target's own property for the key is an
accessor with a setter; whenever it happens it precedes the
structural-version bump (every `rawWrite` event comes before every
`bumpVersion` event in a `set` run); and for any other key the raw target
is left unchanged by the wrapper's `set`. -/
theorem c2_amended (st : PState) (prop : Key) (v : Val) :
    (∀ i j : Nat,
      ((state_proxy_handler.set st prop v).2)[i]? = some Ev.rawWrite →
      ((state_proxy_handler.set st prop v).2)[j]? = some Ev.bumpVersion →
      i < j) ∧
    (Ev.rawWrite ∈ (state_proxy_handler.set st prop v).2 ↔
      lookupK st.tgt prop = some (.accessor true)) ∧
    (lookupK st.tgt prop ≠ some (.accessor true) →
      (state_proxy_handler.set st prop v).1.tgt = st.tgt) := by
  refine ⟨?_, ?_, fun _ => set_tgt st prop v⟩
  · intro i j hi hj
    rw [set_events] at hi hj
    by_cases hA : lookupK st.tgt prop = some (.accessor true) <;>
      by_cases hB : existsKey st prop <;> simp [hA, hB] at hi hj
    · rcases j with _ | j <;> simp at hj
    · have hi0 : i = 0 := by
        rcases i with _ | i
        · rfl
        · rcases i with _ | i <;> simp at hi
      have hj1 : j = 1 := by
        rcases j with _ | j
        · simp at hj
        · rcases j with _ | j
          · rfl
          · simp at hj
      omega
    · rcases i with _ | i <;> simp at hi
  · rw [set_events]
    by_cases hA : lookupK st.tgt prop = some (.accessor true) <;>
      by_cases hB : existsKey st prop <;> simp [hA, hB]

/-- Witness for C2 (amended): on a target whose own `"a"` property is an
accessor with a setter and whose cell is a tombstone, a write emits the
raw-storage update strictly before the version bump. -/
theorem c2_amended_witness :
    (state_proxy_handler.set accessorState (.str "a") (.num 2)).2 =
      [Ev.rawWrite, Ev.bumpVersion] ∧ (0 : Nat) < 1 :=
  ⟨by decide, (c2_amended accessorState (.str "a") (.num 2)).1 0 1 (by decide) (by decide)⟩

/-- C3, counterexample: the structural version does not change exactly when
key existence changes.  Truncating `wrap([1,2,3])` (with live index cells)
via `w.length = 1` turns the existence of index `1` from present to absent
without bumping the version (the `length` key itself was present, so no
bump happens); and `defineProperty` adds a brand-new key, changing its
existence, without ever bumping the version. -/
theorem c3_counterexample :
    (existsKey arr123read (.idx 1) = true ∧ existsKey arrTrunc (.idx 1) = false ∧
      arrTrunc.version = arr123read.version) ∧
    (state_proxy_handler.defineProperty emptyObjState (.str "a")
        ⟨some (.num 1), some true, some true, some true⟩ = .ok defAState ∧
      existsKey emptyObjState (.str "a") = false ∧
      existsKey defAState (.str "a") = true ∧
      defAState.version = emptyObjState.version) := by decide

/-- C3 (amended): per-operation characterization of the structural-version
cell.  `get` and `has` never change it; `set` bumps it exactly when the
written key was not previously present; `deleteProperty` bumps it exactly
when the key was present; `defineProperty` never bumps it (even when it
adds a key).  In particular pure value replacement of a present key never
bumps, and a `set`-write of a brand-new key or a delete of a present key
always bumps — but a `length` truncation and a `defineProperty` addition
can change key existence without a bump. -/
theorem c3_amended (st : PState) (prop : Key) (v : Val) (eff : Bool)
    (d : state_proxy_handler.Desc) :
    ((state_proxy_handler.get st prop).1.version = st.version) ∧
    ((state_proxy_handler.has eff st prop).1.version = st.version) ∧
    ((state_proxy_handler.set st prop v).1.version =
      if existsKey st prop then st.version else st.version + 1) ∧
    ((state_proxy_handler.deleteProperty st prop).1.version =
      if existsKey st prop then st.version + 1 else st.version) ∧
    (∀ st2, state_proxy_handler.defineProperty st prop d = .ok st2 →
      st2.version = st.version) := by
  refine ⟨?_, ?_, set_version st prop v, ?_, ?_⟩
  · simp only [state_proxy_handler.get]
    cases h : lookupK st.cells prop
    · simp only [h]
      split <;> rfl
    · rfl
  · simp only [state_proxy_handler.has]
    cases h : lookupK st.cells prop <;> simp only [h]
    all_goals split
    all_goals try rfl
    all_goals split
    all_goals try rfl
    all_goals split <;> rfl
  · unfold state_proxy_handler.deleteProperty existsKey
    cases h : lookupK st.cells prop <;> simp only [h]
  · intro st2 hok
    by_cases hb : state_proxy_handler.badDesc d
    · simp [state_proxy_handler.defineProperty, hb] at hok
    · cases hcell : lookupK st.cells prop <;>
        simp [state_proxy_handler.defineProperty, hb, hcell] at hok <;>
        simp [← hok]

/-- Witness for C3 (amended): `get` on the empty-object wrapper preserves
the version, and the concrete `defineProperty` result keeps version `0`. -/
theorem c3_amended_witness :
    ((state_proxy_handler.get emptyObjState (.str "z")).1.version =
      emptyObjState.version) ∧
    defAState.version = emptyObjState.version :=
  ⟨(c3_amended emptyObjState (.str "z") (.num 0) false
      ⟨some (.num 0), some true, some true, some true⟩).1,
    (c3_amended emptyObjState (.str "a") (.num 1) false
      ⟨some (.num 1), some true, some true, some true⟩).2.2.2.2 defAState (by decide)⟩

/-- C4, counterexample: `defineProperty` and `set` with the same key and
value do not produce the same state.  On the empty-object wrapper,
defining `"b" = 2` yields version `0` while writing `w.b = 2` yields
version `1` (the structural-version changes differ). -/
theorem c4_counterexample :
    (state_proxy_handler.defineProperty emptyObjState (.str "b")
        ⟨some (.num 2), some true, some true, some true⟩ = .ok defBState) ∧
    ((state_proxy_handler.set emptyObjState (.str "b") (.num 2)).1 = setBState) ∧
    defBState.version ≠ setBState.version := by decide

/-- C4 (amended): when a live cell already exists for the key (and the key
is not the array `length`, whose truncation loop only `set` runs),
`defineProperty(key, plain value descriptor)` produces exactly the same
state as `write(key, value)` — both update the cell to the wrapped value.
The divergences: on a key without a cell, `defineProperty` stores the raw
descriptor value in the fresh cell and never bumps the version, while
`set` stores the wrapped value and bumps the version for an absent key;
`defineProperty` also performs no array-length handling. -/
theorem c4_amended (st : PState) (prop : Key) (v : Val) (c : Val) :
    ((st.isArr = false ∨ prop ≠ .str "length") →
      lookupK st.cells prop = some c → c ≠ .uninit →
      state_proxy_handler.defineProperty st prop ⟨some v, some true, some true, some true⟩ =
        .ok (state_proxy_handler.set st prop v).1) ∧
    (lookupK st.cells prop = none →
      state_proxy_handler.defineProperty st prop ⟨some v, some true, some true, some true⟩ =
        .ok { st with cells := setK st.cells prop v }) ∧
    (st.isArr = false → lookupK st.cells prop = none → lookupK st.tgt prop = none →
      (state_proxy_handler.set st prop v).1 =
        { st with cells := setK st.cells prop (proxyVal v),
                  version := st.version + 1 }) := by
  have hb : state_proxy_handler.badDesc ⟨some v, some true, some true, some true⟩ = false := rfl
  refine ⟨?_, ?_, ?_⟩
  · intro hguard hcell hcu
    have hE : existsKey st prop = true := by
      unfold existsKey; rw [hcell]; simpa using hcu
    have hcond : ¬(st.isArr = true ∧ prop = Key.str "length") := by
      rcases hguard with h | h
      · intro hc; rw [h] at hc; exact Bool.false_ne_true hc.1
      · intro hc; exact h hc.2
    have hset : (state_proxy_handler.set st prop v).1 =
        { st with cells := setK st.cells prop (proxyVal v) } := by
      simp [state_proxy_handler.set, setCellsHas_snd, hE,
        state_proxy_handler.setCellsHas, hcell, hcond, hcu]
    rw [hset]
    simp [state_proxy_handler.defineProperty, hb, hcell]
  · intro hcell
    simp [state_proxy_handler.defineProperty, hb, hcell]
  · intro hA hcell htgt
    have hE : existsKey st prop = false := by
      unfold existsKey; rw [hcell, htgt]; rfl
    simp [state_proxy_handler.set, setCellsHas_snd, hE,
      state_proxy_handler.setCellsHas, hcell, htgt, hA]

/-- Witness for C4 (amended): on a wrapper with a live cell for `"b"`,
define and write agree; on the empty wrapper a fresh write stores the
wrapped value and bumps the version. -/
theorem c4_amended_witness :
    (state_proxy_handler.defineProperty setBState (.str "b")
        ⟨some (.num 3), some true, some true, some true⟩ =
      .ok (state_proxy_handler.set setBState (.str "b") (.num 3)).1) ∧
    ((state_proxy_handler.set emptyObjState (.str "c") (.num 4)).1 =
      { emptyObjState with
          cells := setK emptyObjState.cells (.str "c") (proxyVal (.num 4)),
          version := emptyObjState.version + 1 }) :=
  ⟨(c4_amended setBState (.str "b") (.num 3) (.num 2)).1 (Or.inl rfl) (by decide)
      (by decide),
    (c4_amended emptyObjState (.str "c") (.num 4) (.num 0)).2.2 rfl rfl rfl⟩

/-- C6: `defineProperty` signals `state_descriptors_fixed` (the `.error`
result, thrown before anything is touched, so no state is mutated) exactly
for descriptors that are accessors (no `value` field) or explicitly
non-configurable, non-enumerable or non-writable; every other plain value
descriptor succeeds with a result state. -/
theorem c6_unsupported_descriptor (st : PState) (prop : Key)
    (d : state_proxy_handler.Desc) :
    (state_proxy_handler.defineProperty st prop d = .error () ↔
      (d.value = none ∨ d.configurable = some false ∨ d.enumerable = some false ∨
        d.writable = some false)) ∧
    ((∃ st2, state_proxy_handler.defineProperty st prop d = .ok st2) ↔
      ¬(d.value = none ∨ d.configurable = some false ∨ d.enumerable = some false ∨
        d.writable = some false)) := by
  have hbad : state_proxy_handler.badDesc d = true ↔
      (d.value = none ∨ d.configurable = some false ∨ d.enumerable = some false ∨
        d.writable = some false) := by
    simp only [state_proxy_handler.badDesc, Option.isNone_iff_eq_none, Bool.or_eq_true,
      decide_eq_true_eq]
    tauto
  rw [← hbad]
  by_cases hb : state_proxy_handler.badDesc d
  · simp [state_proxy_handler.defineProperty, hb]
  · cases hcell : lookupK st.cells prop <;>
      simp [state_proxy_handler.defineProperty, hb, hcell]

/-- Witness for C6: an accessor-style descriptor (no `value` field) on the
empty-object wrapper is rejected. -/
theorem c6_witness :
    state_proxy_handler.defineProperty emptyObjState (.str "x")
      ⟨none, some true, some true, some true⟩ = .error () :=
  (c6_unsupported_descriptor emptyObjState (.str "x")
      ⟨none, some true, some true, some true⟩).1.mpr (Or.inl rfl)

/-- C7: key enumeration reads the structural-version cell (its event list
is exactly `[readVersion]`) and returns the raw own keys, in raw order,
with every key whose cell is a tombstone removed, followed by the keys that
exist only as a live cell and are not in the raw key list, in cell-map
iteration order.  Concretely, a brand-new key written purely through the
wrapper appears in the enumeration even though the raw target lacks it, and
truncated array indices disappear. -/
theorem c7_enumeration (st : PState) :
    (state_proxy_handler.ownKeys st =
      ([Ev.readVersion],
        ((st.tgt.map Prod.fst).filter fun key =>
            match lookupK st.cells key with
            | none => true
            | some c => decide (c ≠ Val.uninit)) ++
          ((st.cells.filter fun kc =>
              decide (kc.2 ≠ Val.uninit) && decide (kc.1 ∉ st.tgt.map Prod.fst)).map
            Prod.fst))) ∧
    state_proxy_handler.ownKeys
        (state_proxy_handler.set emptyObjState (.str "b") (.num 7)).1 =
      ([Ev.readVersion], [Key.str "b"]) ∧
    state_proxy_handler.ownKeys arrTrunc =
      ([Ev.readVersion], [Key.idx 0, Key.str "length"]) := by
  refine ⟨?_, by decide, by decide⟩
  simp only [state_proxy_handler.ownKeys]
  rw [foldl_pushKeys]
  have hp : (fun kc : Key × Val =>
        decide (kc.2 ≠ Val.uninit) && (lookupK st.tgt kc.1).isNone) =
      (fun kc : Key × Val =>
        decide (kc.2 ≠ Val.uninit) && decide (kc.1 ∉ st.tgt.map Prod.fst)) := by
    funext kc
    rw [lookupK_isNone]
  rw [hp]

/-- C10 (implicit): once a cell exists for a key, reads and has-checks go
through the cell alone — the result is the cell's value (absence for the
tombstone), the state is unchanged, and the raw target's stored value for
that key is unobservable (replacing the whole raw target changes
nothing). -/
theorem c10_cell_shadows (st : PState) (prop : Key) (c : Val)
    (h : lookupK st.cells prop = some c) :
    ((state_proxy_handler.get st prop).2 = (if c = .uninit then Val.undefined else c)) ∧
    ((state_proxy_handler.get st prop).1 = st) ∧
    (∀ tgt2, (state_proxy_handler.get { st with tgt := tgt2 } prop).2 =
      (state_proxy_handler.get st prop).2) ∧
    (∀ eff, ((state_proxy_handler.has eff st prop).2 = decide (c ≠ .uninit)) ∧
      ((state_proxy_handler.has eff st prop).1 = st)) := by
  have hget : state_proxy_handler.get st prop =
      (st, if c = .uninit then Val.undefined else c) := by
    simp [state_proxy_handler.get, h]
  have hget2 : ∀ tgt2, state_proxy_handler.get { st with tgt := tgt2 } prop =
      ({ st with tgt := tgt2 }, if c = .uninit then Val.undefined else c) := by
    intro tgt2
    simp [state_proxy_handler.get, h]
  refine ⟨by rw [hget], by rw [hget], fun tgt2 => by rw [hget, hget2], fun eff => ?_⟩
  by_cases hcu : c = .uninit <;> simp [state_proxy_handler.has, h, hcu]

/-- Witness for C10: on the wrapper with the live cell `"a" = 1`, the read
leaves the state unchanged and the has-check answers true. -/
theorem c10_witness :
    ((state_proxy_handler.get wObjA (.str "a")).1 = wObjA) ∧
    ((state_proxy_handler.has true wObjA (.str "a")).2 = true) := by
  refine ⟨(c10_cell_shadows wObjA (.str "a") (.num 1) (by decide)).2.1, ?_⟩
  have h := ((c10_cell_shadows wObjA (.str "a") (.num 1) (by decide)).2.2.2 true).1
  simpa using h

/-!
Helper lemmas for the heap model: what a fresh wrap does to the heap, and
how addresses read afterwards.
-/

theorem getElem?_concat_len {α : Type} (l : List α) (x : α) (i : Nat)
    (hi : i = l.length) : (l ++ [x])[i]? = some x := by
  subst hi
  exact List.getElem?_concat_length l x

theorem afterWrap_getObj_self (h : HeapM.Heap) (a : Nat) (y z : HeapM.HObj)
    (hlt : a < h.objs.length) :
    HeapM.getObj { objs := h.objs.set a y ++ [z] } a = some y := by
  unfold HeapM.getObj
  rw [List.getElem?_append]
  simp only [List.length_set, hlt, if_true]
  exact List.getElem?_set_eq_of_lt y hlt

theorem afterWrap_getObj_other (h : HeapM.Heap) (a c : Nat) (y z : HeapM.HObj)
    (x : HeapM.HObj) (hc : HeapM.getObj h c = some x) (hne : a ≠ c) :
    HeapM.getObj { objs := h.objs.set a y ++ [z] } c = some x := by
  have hlt : c < h.objs.length := (List.getElem?_eq_some.mp hc).1
  unfold HeapM.getObj
  rw [List.getElem?_append]
  simp only [List.length_set, hlt, if_true]
  rw [List.getElem?_set_ne hne]
  exact hc

theorem afterWrap_getObj_new (h : HeapM.Heap) (a : Nat) (y z : HeapM.HObj) :
    HeapM.getObj { objs := h.objs.set a y ++ [z] } h.objs.length = some z := by
  unfold HeapM.getObj
  exact getElem?_concat_len _ z _ (by simp)

/-- What `proxy` does to a fresh, unfrozen plain object with a bare
prototype and no marker: it allocates the proxy at the end of the heap and
installs the metadata record on the target. -/
theorem freshWrap_spec (h : HeapM.Heap) (a : Nat)
    (ha : HeapM.getObj h a = some (.plain false true none)) :
    HeapM.proxy h (.ref a) =
      ({ objs := h.objs.set a (.plain false true (some ⟨h.objs.length, a⟩)) ++
          [.proxyOf a] },
        .ref h.objs.length) := by
  have ha2 : h.objs[a]? = some (HeapM.HObj.plain false true none) := ha
  have hfz : HeapM.isFrozenH h a = false := by
    unfold HeapM.isFrozenH
    rw [ha]
  have hmeta : HeapM.metaOf h a = none := by
    unfold HeapM.metaOf
    rw [ha]
  have hpk : HeapM.protoOkH h a = true := by
    unfold HeapM.protoOkH
    rw [ha]
  have hsm : HeapM.setMetaAt h.objs a ⟨h.objs.length, a⟩ =
      h.objs.set a (.plain false true (some ⟨h.objs.length, a⟩)) := by
    unfold HeapM.setMetaAt
    rw [ha2]
  simp [HeapM.proxy, HeapM.freshWrap, hfz, hmeta, hpk, hsm]

/-- C5: wrapping is idempotent and identity-stable.  For a fresh plain
object `o`, `wrap(wrap(o))` returns the very same wrapper and heap as
`wrap(o)`, re-wrapping the same target `o` returns the identical wrapper
(exactly one metadata record per target), and `unwrap(wrap(o))` equals `o`
under `is_same`. -/
theorem c5_idempotent_wrap (h : HeapM.Heap) (a : Nat)
    (ha : HeapM.getObj h a = some (.plain false true none)) :
    HeapM.proxy (HeapM.proxy h (.ref a)).1 ((HeapM.proxy h (.ref a)).2) =
        HeapM.proxy h (.ref a) ∧
    HeapM.proxy (HeapM.proxy h (.ref a)).1 (.ref a) = HeapM.proxy h (.ref a) ∧
    HeapM.is (HeapM.proxy h (.ref a)).1
        (HeapM.get_proxied_value (HeapM.proxy h (.ref a)).1
          ((HeapM.proxy h (.ref a)).2))
        (.ref a) = true := by
  have haLt : a < h.objs.length := (List.getElem?_eq_some.mp ha).1
  have hanne : a ≠ h.objs.length := Nat.ne_of_lt haLt
  have hP := freshWrap_spec h a ha
  rw [hP]
  have h1a := afterWrap_getObj_self h a
    (.plain false true (some ⟨h.objs.length, a⟩)) (.proxyOf a) haLt
  have h1n := afterWrap_getObj_new h a
    (.plain false true (some ⟨h.objs.length, a⟩)) (.proxyOf a)
  have hm1n : HeapM.metaOf
      { objs := h.objs.set a (.plain false true (some ⟨h.objs.length, a⟩)) ++
          [.proxyOf a] } h.objs.length = some ⟨h.objs.length, a⟩ := by
    simp [HeapM.metaOf, h1n, h1a]
  have hm1a : HeapM.metaOf
      { objs := h.objs.set a (.plain false true (some ⟨h.objs.length, a⟩)) ++
          [.proxyOf a] } a = some ⟨h.objs.length, a⟩ := by
    simp [HeapM.metaOf, h1a]
  have hf1n : HeapM.isFrozenH
      { objs := h.objs.set a (.plain false true (some ⟨h.objs.length, a⟩)) ++
          [.proxyOf a] } h.objs.length = false := by
    simp [HeapM.isFrozenH, h1n, h1a]
  have hf1a : HeapM.isFrozenH
      { objs := h.objs.set a (.plain false true (some ⟨h.objs.length, a⟩)) ++
          [.proxyOf a] } a = false := by
    simp [HeapM.isFrozenH, h1a]
  refine ⟨?_, ?_, ?_⟩
  · simp [HeapM.proxy, hf1n, hm1n]
  · simp [HeapM.proxy, hf1a, hm1a]
  · simp [HeapM.is, HeapM.get_proxied_value, hm1n, hm1a]

/-- Witness for C5: the idempotence facts evaluated on the one-object
heap. -/
theorem c5_witness :
    HeapM.proxy (HeapM.proxy heap1 (.ref 0)).1 ((HeapM.proxy heap1 (.ref 0)).2) =
      HeapM.proxy heap1 (.ref 0) :=
  (c5_idempotent_wrap heap1 0 (by decide)).1

/-- C9: equality unwrapping.  A wrapper and its target compare equal under
`is` (also after further wraps extend the heap), and the wrappers of two
distinct raw objects compare unequal. -/
theorem c9_equality_unwrapping (h : HeapM.Heap) (a1 a2 : Nat)
    (ha1 : HeapM.getObj h a1 = some (.plain false true none))
    (ha2 : HeapM.getObj h a2 = some (.plain false true none))
    (hne : a1 ≠ a2) :
    HeapM.is (HeapM.proxy h (.ref a1)).1 ((HeapM.proxy h (.ref a1)).2) (.ref a1) =
      true ∧
    HeapM.is (HeapM.proxy (HeapM.proxy h (.ref a1)).1 (.ref a2)).1
        ((HeapM.proxy h (.ref a1)).2) (.ref a1) = true ∧
    HeapM.is (HeapM.proxy (HeapM.proxy h (.ref a1)).1 (.ref a2)).1
        ((HeapM.proxy h (.ref a1)).2)
        ((HeapM.proxy (HeapM.proxy h (.ref a1)).1 (.ref a2)).2) = false := by
  have ha1Lt : a1 < h.objs.length := (List.getElem?_eq_some.mp ha1).1
  have ha2Lt : a2 < h.objs.length := (List.getElem?_eq_some.mp ha2).1
  have hP1 := freshWrap_spec h a1 ha1
  rw [hP1]
  set m1 : HeapM.HObj := .plain false true (some ⟨h.objs.length, a1⟩) with hm1eq
  set L1 : List HeapM.HObj := h.objs.set a1 m1 ++ [.proxyOf a1] with hL1eq
  have h1a1 : HeapM.getObj { objs := L1 } a1 = some m1 :=
    afterWrap_getObj_self h a1 m1 (.proxyOf a1) ha1Lt
  have h1n1 : HeapM.getObj { objs := L1 } h.objs.length = some (.proxyOf a1) :=
    afterWrap_getObj_new h a1 m1 (.proxyOf a1)
  have h1a2 : HeapM.getObj { objs := L1 } a2 = some (.plain false true none) :=
    afterWrap_getObj_other h a1 a2 m1 (.proxyOf a1) _ ha2 hne
  have hm1a1 : HeapM.metaOf { objs := L1 } a1 = some ⟨h.objs.length, a1⟩ := by
    simp [HeapM.metaOf, h1a1, hm1eq]
  have hm1n1 : HeapM.metaOf { objs := L1 } h.objs.length =
      some ⟨h.objs.length, a1⟩ := by
    simp [HeapM.metaOf, h1n1, h1a1, hm1eq]
  have hc1 : HeapM.is { objs := L1 } (.ref h.objs.length) (.ref a1) = true := by
    simp [HeapM.is, HeapM.get_proxied_value, hm1n1, hm1a1]
  have hna2 : a2 ≠ h.objs.length := Nat.ne_of_lt ha2Lt
  have hP2 := freshWrap_spec { objs := L1 } a2 h1a2
  rw [hP2]
  set m2 : HeapM.HObj :=
    .plain false true (some ⟨({ objs := L1 } : HeapM.Heap).objs.length, a2⟩) with hm2eq
  have h2n1 : HeapM.getObj
      { objs := ({ objs := L1 } : HeapM.Heap).objs.set a2 m2 ++ [.proxyOf a2] }
      h.objs.length = some (.proxyOf a1) :=
    afterWrap_getObj_other { objs := L1 } a2 h.objs.length m2 (.proxyOf a2)
      (.proxyOf a1) h1n1 hna2
  have h2a1 : HeapM.getObj
      { objs := ({ objs := L1 } : HeapM.Heap).objs.set a2 m2 ++ [.proxyOf a2] }
      a1 = some m1 :=
    afterWrap_getObj_other { objs := L1 } a2 a1 m2 (.proxyOf a2) m1 h1a1 hne.symm
  have h2n2 : HeapM.getObj
      { objs := ({ objs := L1 } : HeapM.Heap).objs.set a2 m2 ++ [.proxyOf a2] }
      (({ objs := L1 } : HeapM.Heap).objs.length) = some (.proxyOf a2) :=
    afterWrap_getObj_new { objs := L1 } a2 m2 (.proxyOf a2)
  have ha2Lt1 : a2 < ({ objs := L1 } : HeapM.Heap).objs.length := by
    simp only [hL1eq, List.length_append, List.length_set]
    omega
  have h2a2 : HeapM.getObj
      { objs := ({ objs := L1 } : HeapM.Heap).objs.set a2 m2 ++ [.proxyOf a2] }
      a2 = some m2 :=
    afterWrap_getObj_self { objs := L1 } a2 m2 (.proxyOf a2) ha2Lt1
  have hm2n1 : HeapM.metaOf
      { objs := ({ objs := L1 } : HeapM.Heap).objs.set a2 m2 ++ [.proxyOf a2] }
      h.objs.length = some ⟨h.objs.length, a1⟩ := by
    simp [HeapM.metaOf, h2n1, h2a1, hm1eq]
  have hm2a1 : HeapM.metaOf
      { objs := ({ objs := L1 } : HeapM.Heap).objs.set a2 m2 ++ [.proxyOf a2] }
      a1 = some ⟨h.objs.length, a1⟩ := by
    simp [HeapM.metaOf, h2a1, hm1eq]
  have hm2n2 : HeapM.metaOf
      { objs := ({ objs := L1 } : HeapM.Heap).objs.set a2 m2 ++ [.proxyOf a2] }
      (({ objs := L1 } : HeapM.Heap).objs.length) =
      some ⟨({ objs := L1 } : HeapM.Heap).objs.length, a2⟩ := by
    simp [HeapM.metaOf, h2n2, h2a2, hm2eq]
  have hlen1 : ({ objs := L1 } : HeapM.Heap).objs.length = h.objs.length + 1 := by
    simp [hL1eq]
  refine ⟨hc1, ?_, ?_⟩
  · simp [HeapM.is, HeapM.get_proxied_value, hm2n1, hm2a1]
  · simp only [HeapM.is, HeapM.get_proxied_value, hm2n1, hm2n2]
    simp [hlen1]

/-- Witness for C9: on the two-object heap, the wrappers of objects `0` and
`1` compare unequal under `is`. -/
theorem c9_witness :
    HeapM.is (HeapM.proxy (HeapM.proxy heap2 (.ref 0)).1 (.ref 1)).1
        ((HeapM.proxy heap2 (.ref 0)).2)
        ((HeapM.proxy (HeapM.proxy heap2 (.ref 0)).1 (.ref 1)).2) = false :=
  (c9_equality_unwrapping heap2 0 1 (by decide) (by decide) (by decide)).2.2

end SvelteProxy
